import Mathlib

/-!
Error-rate retry policy of `statemachine/errors.go`.

A shallow embedding of `DefaultErrHandler` and of the data it works on,
followed by the properties of the policy.

Modelling conventions.

* A `time.Time` is an instant on the wall-clock time line, counted in
  nanoseconds, as an unbounded integer; a `time.Duration` is a signed number
  of nanoseconds.  `Add` is integer addition and `After` is the strict order.
* `time.Now()` is an input of the function.  The source reads the clock
  twice (once to compute the cutoff, once to compute the deadline), so the
  embedding takes the two readings as two arguments, in the order in which the
  source takes them.
* A Go slice is a list; a slice expression `s[lo:]` fails (the Go runtime
  panics) when `lo` is out of range, so it returns an `Option`.
-/

set_option linter.dupNamespace false

namespace statemachine

/-! ## Time -/

/-- An instant (`time.Time`), in nanoseconds on the wall-clock time line. -/
abbrev Time := Int

/-- A signed span of nanoseconds (`time.Duration`). -/
abbrev Duration := Int

/-- Constant `time.Minute`, in nanoseconds. -/
def Minute : Duration := 60 * 1000000000

/-- Constant `time.Hour`, in nanoseconds. -/
def Hour : Duration := 60 * Minute

/-- Method `t.Add(d)` of `time.Time`. -/
def Time.Add (t : Time) (d : Duration) : Time := t + d

/-- Method `t.After(u)` of `time.Time`: whether `t` is strictly later than `u`. -/
def Time.After (t u : Time) : Bool := decide (u < t)

/-! ## Data model -/

/-- A Go `error` value, identified by the text it carries. -/
structure GoError where
  text : String
  deriving DecidableEq, Repr

/-- The sentinel `ExceededErrorRate = errors.New("exceeded error rate")`. -/
def ExceededErrorRate : GoError := ⟨"exceeded error rate"⟩

/-- The record `Err`: one failure of a stateful handler. -/
structure Err where
  Time : Time
  Err : String
  deriving DecidableEq, Repr

/-- Modelled from the spec: the message codes of the `Message` type, whose
declaration is not part of `errors.go`.  The spec lists `Run`, `Sleep` and
`Fail`, plus the internal `Error` signal that requests the Fail transition. -/
inductive MessageCode where
  | Run
  | Sleep
  | Fail
  | Error
  deriving DecidableEq, Repr

/-- Modelled from the spec: the `Message` type, whose declaration is not part
of `errors.go`: a code, an optional deadline (`Until *time.Time`, absent when
`nil`) and an optional cause (`Err error`, absent when `nil`).  A composite
literal leaves the fields it does not name at their zero value `nil`. -/
structure Message where
  Code : MessageCode
  Until : Option Time
  Err : Option GoError
  deriving DecidableEq, Repr

/-- Constant `DefaultErrLifetime = -4 * time.Hour`. -/
def DefaultErrLifetime : Duration := -4 * Hour

/-- Constant `DefaultErrMax = 8`. -/
def DefaultErrMax : Nat := 8

/-! ## The policy -/

/-- The slice expression `s[lo:]`: the elements of `s` from index `lo` on.
It fails when `lo` is negative or greater than `len(s)`. -/
def sliceFrom {α : Type} (s : List α) (lo : Int) : Option (List α) :=
  if 0 ≤ lo ∧ lo ≤ (s.length : Int) then some (s.drop lo.toNat) else none

/-- The counting loop of `DefaultErrHandler`:
`for _, err := range errs { if err.Time.After(recent) { strikes++ } }`,
started from `strikes`. -/
def countStrikes (recent : Time) (errs : List Err) (strikes : Nat) : Nat :=
  errs.foldl (fun n err => if Time.After err.Time recent then n + 1 else n) strikes

/-- The function `DefaultErrHandler`.  `now₁` is the reading of `time.Now()`
from which the cutoff `recent` is computed, `now₂` the reading from which the
deadline `until` is computed. -/
def DefaultErrHandler (now₁ now₂ : Time) (_taskID : String) (errs : List Err) :
    Option (Message × List Err) :=
  let recent := Time.Add now₁ DefaultErrLifetime
  let strikes := countStrikes recent errs 0
  if strikes ≥ DefaultErrMax then
    some ({ Code := MessageCode.Error, Until := none, Err := some ExceededErrorRate }, errs)
  else
    let keeperrs : Option (List Err) :=
      if errs.length > DefaultErrMax then
        sliceFrom errs ((errs.length : Int) - (DefaultErrMax : Int))
      else
        some errs
    let until' := Time.Add now₂ (10 * Minute)
    keeperrs.map (fun k => ({ Code := MessageCode.Sleep, Until := some until', Err := none }, k))

/-! ## Vocabulary of the specification -/

/-- The cutoff of the look-back window: four hours before `now`. -/
def cutoff (now : Time) : Time := now - 4 * Hour

/-- A strike: a record that occurred strictly after the cutoff. -/
def isStrike (now : Time) (e : Err) : Bool := decide (cutoff now < e.Time)

/-- The number of strikes of a history at the clock reading `now`. -/
def strikeCount (now : Time) (errs : List Err) : Nat := errs.countP (isStrike now)

/-- The terminal message: the `Error` signal carrying the sentinel cause. -/
def isRateExceeded (m : Message) : Prop :=
  m.Code = MessageCode.Error ∧ m.Err = some ExceededErrorRate

instance (m : Message) : Decidable (isRateExceeded m) := by
  unfold isRateExceeded; infer_instance

/-- A history of `n` records, all with the description `"boom"`, whose
timestamps are given by `t`. -/
def sampleHistory (n : Nat) (t : Nat → Time) : List Err :=
  (List.range n).map (fun i => { Time := t i, Err := "boom" })

/-- A history of 20 records in chronological order: 13 that occurred five
hours before the instant 0, then 7 that occurred one hour before it. -/
def mixedHistory : List Err :=
  sampleHistory 20 (fun i => if i < 13 then -5 * Hour else -Hour)

/-- The history `errs'` is `errs` with additional records inserted, at any
positions, each of them timestamped exactly `c`. -/
inductive InsertedAt (c : Time) : List Err → List Err → Prop where
  | done : InsertedAt c [] []
  | keep (e : Err) {errs errs' : List Err} :
      InsertedAt c errs errs' → InsertedAt c (e :: errs) (e :: errs')
  | insert (e : Err) {errs errs' : List Err} :
      e.Time = c → InsertedAt c errs errs' → InsertedAt c errs (e :: errs')

/-- The code of the message of a result. -/
def codeOf (r : Option (Message × List Err)) : Option MessageCode := r.map (fun p => p.1.Code)

/-- The deadline of the message of a result. -/
def untilOf (r : Option (Message × List Err)) : Option (Option Time) :=
  r.map (fun p => p.1.Until)

/-- The cause of the message of a result. -/
def causeOf (r : Option (Message × List Err)) : Option (Option GoError) :=
  r.map (fun p => p.1.Err)

/-- The history of a result. -/
def historyOf (r : Option (Message × List Err)) : Option (List Err) := r.map (fun p => p.2)

/-- A history of `n` records whose timestamps are given by `t` and whose
descriptions are given by `d`. -/
def labelledHistory (n : Nat) (t : Nat → Time) (d : Nat → String) : List Err :=
  (List.range n).map (fun i => { Time := t i, Err := d i })

/-- A history in chronological order: the timestamps never decrease from a
record to a later one. -/
def nonDecreasing (errs : List Err) : Prop :=
  errs.Pairwise (fun a b => a.Time ≤ b.Time)

instance (errs : List Err) : Decidable (nonDecreasing errs) := by
  unfold nonDecreasing; infer_instance

/-- Two histories of equal length whose records have pairwise equal
timestamps; the descriptions are left free. -/
def sameTimestamps (errs errs' : List Err) : Prop :=
  List.Forall₂ (fun a b => a.Time = b.Time) errs errs'

/-- The policy returns the terminal rate-exceeded message for `errs`. -/
def returnsTerminal (now₁ now₂ : Time) (taskID : String) (errs : List Err) : Prop :=
  ∃ (m : Message) (kept : List Err),
    DefaultErrHandler now₁ now₂ taskID errs = some (m, kept) ∧ isRateExceeded m

/-! ## The executor cycle -/

/-- One failure of a task's handler: the record the executor appends to the
history, and the two clock readings of the policy call that follows. -/
structure Failure where
  record : Err
  now₁ : Time
  now₂ : Time
  deriving DecidableEq, Repr

/-- One round of the executor cycle: the history passed to the policy, the
message the policy returned and the history persisted afterwards. -/
structure Round where
  passed : List Err
  msg : Message
  persisted : List Err
  deriving DecidableEq, Repr

/-- Modelled from the spec: the executor cycle, which is not part of
`errors.go`.  On each failure the executor appends one record to the persisted
history, invokes the policy on that history, and persists the history the
policy returns; it stops at the terminal message. -/
def executorCycle (taskID : String) : List Err → List Failure → List Round
  | _, [] => []
  | persisted, f :: rest =>
    match DefaultErrHandler f.now₁ f.now₂ taskID (persisted ++ [f.record]) with
    | none => []
    | some (m, kept) =>
      { passed := persisted ++ [f.record], msg := m, persisted := kept } ::
        (if isRateExceeded m then [] else executorCycle taskID kept rest)

/-- A run of `n` failures, one per hour from the instant 0 on, each followed
at once by the policy call. -/
def hourlyFailures (n : Nat) : List Failure :=
  (List.range n).map (fun i =>
    { record := { Time := i * Hour, Err := "boom" }, now₁ := i * Hour, now₂ := i * Hour })

/-- The twelfth round of the cycle run on `hourlyFailures 12`: the records of
the hours 3 to 11 are passed to the policy, which answers `Sleep` and keeps
the records of the hours 4 to 11. -/
def twelfthHourlyRound : Round :=
  { passed := labelledHistory 9 (fun i => (i + 3) * Hour) (fun _ => "boom")
    msg := { Code := MessageCode.Sleep, Until := some (11 * Hour + 10 * Minute), Err := none }
    persisted := labelledHistory 8 (fun i => (i + 4) * Hour) (fun _ => "boom") }

/-- A history out of chronological order: one record at the instant `now`
placed before 9 records that occurred five hours before `now`. -/
def recentThenOld (now : Time) : List Err :=
  { Time := now, Err := "recent" } :: List.replicate 9 { Time := now - 5 * Hour, Err := "old" }

/-! ## The loop and the two paths -/

theorem countStrikes_eq_countP (recent : Time) (errs : List Err) (k : Nat) :
    countStrikes recent errs k = k + errs.countP (fun e => decide (recent < e.Time)) := by
  induction errs generalizing k with
  | nil => simp [countStrikes]
  | cons e rest ih =>
    have step : countStrikes recent (e :: rest) k
        = countStrikes recent rest (if Time.After e.Time recent then k + 1 else k) := rfl
    rw [step, ih, List.countP_cons]
    by_cases h : recent < e.Time
    · simp [Time.After, h]; omega
    · simp [Time.After, h]

theorem recent_eq_cutoff (now : Time) : Time.Add now DefaultErrLifetime = cutoff now := by
  simp only [Time.Add, DefaultErrLifetime, cutoff]; ring

theorem countStrikes_eq_strikeCount (now : Time) (errs : List Err) :
    countStrikes (Time.Add now DefaultErrLifetime) errs 0 = strikeCount now errs := by
  rw [countStrikes_eq_countP, recent_eq_cutoff, Nat.zero_add]
  rfl

theorem sliceFrom_tail (errs : List Err) (h : errs.length > DefaultErrMax) :
    sliceFrom errs ((errs.length : Int) - (DefaultErrMax : Int))
      = some (errs.drop (errs.length - DefaultErrMax)) := by
  have hle : (DefaultErrMax : Int) ≤ (errs.length : Int) := by exact_mod_cast h.le
  have hnat : ((errs.length : Int) - (DefaultErrMax : Int)).toNat = errs.length - DefaultErrMax := by
    omega
  have hcond : 0 ≤ (errs.length : Int) - (DefaultErrMax : Int)
      ∧ (errs.length : Int) - (DefaultErrMax : Int) ≤ (errs.length : Int) := by
    constructor <;> omega
  rw [sliceFrom, if_pos hcond, hnat]

/-- The terminal path: with at least `DefaultErrMax` strikes the result is the
`Error` message with the sentinel, and the input history. -/
theorem DefaultErrHandler_of_le (now₁ now₂ : Time) (taskID : String) (errs : List Err)
    (h : DefaultErrMax ≤ strikeCount now₁ errs) :
    DefaultErrHandler now₁ now₂ taskID errs
      = some ({ Code := MessageCode.Error, Until := none, Err := some ExceededErrorRate }, errs) := by
  have hs := countStrikes_eq_strikeCount now₁ errs
  simp only [DefaultErrHandler, hs, ge_iff_le, if_pos h]

/-- The continuing path: with fewer than `DefaultErrMax` strikes the result is
the `Sleep` message and the last `DefaultErrMax` records. -/
theorem DefaultErrHandler_of_lt (now₁ now₂ : Time) (taskID : String) (errs : List Err)
    (h : strikeCount now₁ errs < DefaultErrMax) :
    DefaultErrHandler now₁ now₂ taskID errs
      = some ({ Code := MessageCode.Sleep, Until := some (now₂ + 10 * Minute), Err := none },
          errs.drop (errs.length - DefaultErrMax)) := by
  have hs := countStrikes_eq_strikeCount now₁ errs
  have hn : ¬ DefaultErrMax ≤ strikeCount now₁ errs := Nat.not_le.mpr h
  simp only [DefaultErrHandler, hs, ge_iff_le, if_neg hn]
  by_cases hl : errs.length > DefaultErrMax
  · rw [if_pos hl, sliceFrom_tail errs hl]; rfl
  · rw [if_neg hl]
    have : errs.length - DefaultErrMax = 0 := by omega
    rw [this]; rfl

theorem strikeCount_of_insertedAt (now : Time) {errs errs' : List Err}
    (h : InsertedAt (cutoff now) errs errs') : strikeCount now errs' = strikeCount now errs := by
  induction h with
  | done => rfl
  | keep e _ ih =>
    simp only [strikeCount, List.countP_cons] at ih ⊢
    rw [ih]
  | insert e he _ ih =>
    have hno : isStrike now e = false := by simp [isStrike, he]
    simp only [strikeCount, List.countP_cons, hno] at ih ⊢
    simpa using ih

theorem strikeCount_eq_zero_of_old (now : Time) (errs : List Err)
    (h : ∀ e ∈ errs, ¬ cutoff now < e.Time) : strikeCount now errs = 0 := by
  rw [strikeCount, List.countP_eq_zero]
  intro e he
  simpa [isStrike] using h e he

/-- The function returns on every input, on one of its two paths. -/
theorem DefaultErrHandler_cases (now₁ now₂ : Time) (taskID : String) (errs : List Err) :
    (DefaultErrMax ≤ strikeCount now₁ errs ∧ DefaultErrHandler now₁ now₂ taskID errs
        = some ({ Code := MessageCode.Error, Until := none, Err := some ExceededErrorRate }, errs))
      ∨ (strikeCount now₁ errs < DefaultErrMax ∧ DefaultErrHandler now₁ now₂ taskID errs
        = some ({ Code := MessageCode.Sleep, Until := some (now₂ + 10 * Minute), Err := none },
            errs.drop (errs.length - DefaultErrMax))) := by
  rcases Nat.lt_or_ge (strikeCount now₁ errs) DefaultErrMax with h | h
  · exact Or.inr ⟨h, DefaultErrHandler_of_lt now₁ now₂ taskID errs h⟩
  · exact Or.inl ⟨h, DefaultErrHandler_of_le now₁ now₂ taskID errs h⟩

/-! ## The terminal path -/

/-- C1, as stated, fails: for the history of 8 records that all occurred one
hour before `now` (8 strikes), the returned message has the code `Error`,
which is not the code `Fail`. -/
theorem terminal_code_is_not_Fail :
    8 ≤ strikeCount 0 (sampleHistory 8 (fun _ => -Hour))
      ∧ codeOf (DefaultErrHandler 0 0 "task" (sampleHistory 8 (fun _ => -Hour)))
          = some MessageCode.Error
      ∧ codeOf (DefaultErrHandler 0 0 "task" (sampleHistory 8 (fun _ => -Hour)))
          ≠ some MessageCode.Fail := by
  decide

/-- C1, amended: for every task id, all clock readings and every history with
at least 8 records strictly after `now - 4h`, `DefaultErrHandler` returns a
message whose code is `Error` (the signal that requests the transition to
Failed) and whose cause is the sentinel `ExceededErrorRate`. -/
theorem terminal_message_code_and_cause (now₁ now₂ : Time) (taskID : String) (errs : List Err)
    (h : 8 ≤ strikeCount now₁ errs) :
    codeOf (DefaultErrHandler now₁ now₂ taskID errs) = some MessageCode.Error
      ∧ causeOf (DefaultErrHandler now₁ now₂ taskID errs) = some (some ExceededErrorRate) := by
  rw [DefaultErrHandler_of_le now₁ now₂ taskID errs h]
  exact ⟨rfl, rfl⟩

/-- C1, amended, at 9 records of which 8 are strikes. -/
theorem terminal_message_code_and_cause_witness :
    8 ≤ strikeCount 0 (sampleHistory 9 (fun i => if i = 0 then -5 * Hour else -Hour))
      ∧ codeOf (DefaultErrHandler 0 7 "task"
            (sampleHistory 9 (fun i => if i = 0 then -5 * Hour else -Hour)))
          = some MessageCode.Error
      ∧ causeOf (DefaultErrHandler 0 7 "task"
            (sampleHistory 9 (fun i => if i = 0 then -5 * Hour else -Hour)))
          = some (some ExceededErrorRate) :=
  ⟨by decide, terminal_message_code_and_cause 0 7 "task" _ (by decide)⟩

/-- C2: for every history with at least 8 records strictly after `now - 4h`,
the history returned by `DefaultErrHandler` is the input history itself, of
whatever length. -/
theorem terminal_history_unchanged (now₁ now₂ : Time) (taskID : String) (errs : List Err)
    (h : 8 ≤ strikeCount now₁ errs) :
    historyOf (DefaultErrHandler now₁ now₂ taskID errs) = some errs := by
  rw [DefaultErrHandler_of_le now₁ now₂ taskID errs h]
  rfl

/-- C2 at 20 records, all of them strikes: the 20 records stay 20. -/
theorem terminal_history_unchanged_witness :
    8 ≤ strikeCount 0 (sampleHistory 20 (fun i => -Hour + i))
      ∧ historyOf (DefaultErrHandler 0 0 "task" (sampleHistory 20 (fun i => -Hour + i)))
          = some (sampleHistory 20 (fun i => -Hour + i)) :=
  ⟨by decide, terminal_history_unchanged 0 0 "task" _ (by decide)⟩

/-! ## The continuing path -/

/-- C3: for every task id, all clock readings and every history with fewer
than 8 records strictly after `now - 4h`, `DefaultErrHandler` returns a
message whose code is `Sleep`. -/
theorem sleep_message_code (now₁ now₂ : Time) (taskID : String) (errs : List Err)
    (h : strikeCount now₁ errs < 8) :
    codeOf (DefaultErrHandler now₁ now₂ taskID errs) = some MessageCode.Sleep := by
  rw [DefaultErrHandler_of_lt now₁ now₂ taskID errs h]
  rfl

/-- C3 at exactly 7 strikes. -/
theorem sleep_message_code_witness :
    strikeCount 0 (sampleHistory 7 (fun _ => -Hour)) < 8
      ∧ codeOf (DefaultErrHandler 0 0 "task" (sampleHistory 7 (fun _ => -Hour)))
          = some MessageCode.Sleep :=
  ⟨by decide, sleep_message_code 0 0 "task" _ (by decide)⟩

/-- C4: on the Sleep path the returned history is the last `min n 8` records
of the input of length `n`, in their original order; so it has at most 8
records, an input of at most 8 records comes back unchanged, and an input of
20 records comes back as its last 8. -/
theorem sleep_history_trimmed (now₁ now₂ : Time) (taskID : String) (errs : List Err)
    (h : strikeCount now₁ errs < 8) :
    ∃ kept : List Err,
      historyOf (DefaultErrHandler now₁ now₂ taskID errs) = some kept
        ∧ kept = errs.drop (errs.length - min errs.length 8)
        ∧ kept.length = min errs.length 8
        ∧ kept.length ≤ 8
        ∧ (errs.length ≤ 8 → kept = errs)
        ∧ (errs.length = 20 → kept = errs.drop 12) := by
  refine ⟨errs.drop (errs.length - DefaultErrMax), ?_, ?_, ?_, ?_, ?_, ?_⟩
  · rw [DefaultErrHandler_of_lt now₁ now₂ taskID errs h]
    rfl
  · have : errs.length - min errs.length 8 = errs.length - DefaultErrMax := by
      simp only [DefaultErrMax]; omega
    rw [this]
  · simp only [List.length_drop, DefaultErrMax]; omega
  · simp only [List.length_drop, DefaultErrMax]; omega
  · intro hl
    have : errs.length - DefaultErrMax = 0 := by simp only [DefaultErrMax]; omega
    rw [this, List.drop_zero]
  · intro hl
    rw [hl]
    rfl

/-- C4 at 20 records of which the last 7 are strikes: the last 8 are kept. -/
theorem sleep_history_trimmed_witness :
    strikeCount 0 mixedHistory < 8
      ∧ ∃ kept : List Err,
          historyOf (DefaultErrHandler 0 0 "task" mixedHistory) = some kept
            ∧ kept = mixedHistory.drop (mixedHistory.length - min mixedHistory.length 8)
            ∧ kept.length = min mixedHistory.length 8
            ∧ kept.length ≤ 8
            ∧ (mixedHistory.length ≤ 8 → kept = mixedHistory)
            ∧ (mixedHistory.length = 20 → kept = mixedHistory.drop 12) :=
  ⟨by decide, sleep_history_trimmed 0 0 "task" mixedHistory (by decide)⟩

/-! ## The window -/

/-- C5: the strike count uses a strict inequality.  A record that occurred
exactly at `now - 4h` is not counted by the loop; so for every history,
inserting any number of such records, at any positions, changes neither the
number of strikes the loop counts nor the code of the returned message; and a
history of any number of records exactly at the cutoff (8, for one) yields
`Sleep`. -/
theorem cutoff_records_not_counted (now₁ now₂ : Time) (taskID : String) (errs errs' : List Err)
    (h : InsertedAt (cutoff now₁) errs errs') :
    (∀ e : Err, e.Time = cutoff now₁ →
        Time.After e.Time (Time.Add now₁ DefaultErrLifetime) = false)
      ∧ countStrikes (Time.Add now₁ DefaultErrLifetime) errs' 0
          = countStrikes (Time.Add now₁ DefaultErrLifetime) errs 0
      ∧ (∃ c : MessageCode, codeOf (DefaultErrHandler now₁ now₂ taskID errs) = some c
          ∧ codeOf (DefaultErrHandler now₁ now₂ taskID errs') = some c)
      ∧ (∀ (k : Nat) (d : String), codeOf (DefaultErrHandler now₁ now₂ taskID
          (List.replicate k { Time := cutoff now₁, Err := d })) = some MessageCode.Sleep) := by
  have hcount := strikeCount_of_insertedAt now₁ h
  refine ⟨?_, ?_, ?_, ?_⟩
  · intro e he
    simp [Time.After, recent_eq_cutoff, he]
  · rw [countStrikes_eq_strikeCount, countStrikes_eq_strikeCount, hcount]
  · rcases DefaultErrHandler_cases now₁ now₂ taskID errs with ⟨hs, hr⟩ | ⟨hs, hr⟩
    · refine ⟨MessageCode.Error, by rw [hr]; rfl, ?_⟩
      rw [DefaultErrHandler_of_le now₁ now₂ taskID errs' (hcount ▸ hs)]; rfl
    · refine ⟨MessageCode.Sleep, by rw [hr]; rfl, ?_⟩
      rw [DefaultErrHandler_of_lt now₁ now₂ taskID errs' (hcount ▸ hs)]; rfl
  · intro k d
    have hz : strikeCount now₁ (List.replicate k { Time := cutoff now₁, Err := d }) = 0 := by
      apply strikeCount_eq_zero_of_old
      intro e he
      rw [List.eq_of_mem_replicate he]
      exact lt_irrefl _
    rw [DefaultErrHandler_of_lt now₁ now₂ taskID _ (by rw [hz]; decide)]
    rfl

/-- C5 at the history of two strikes into which three records exactly at the
cutoff are inserted, in front, in the middle and at the end. -/
theorem cutoff_records_not_counted_witness :
    InsertedAt (cutoff 0)
        [{ Time := -Hour, Err := "a" }, { Time := -Hour, Err := "b" }]
        [{ Time := cutoff 0, Err := "x" }, { Time := -Hour, Err := "a" },
          { Time := cutoff 0, Err := "y" }, { Time := -Hour, Err := "b" },
          { Time := cutoff 0, Err := "z" }]
      ∧ (∃ c : MessageCode,
          codeOf (DefaultErrHandler 0 0 "task"
              [{ Time := -Hour, Err := "a" }, { Time := -Hour, Err := "b" }]) = some c
            ∧ codeOf (DefaultErrHandler 0 0 "task"
              [{ Time := cutoff 0, Err := "x" }, { Time := -Hour, Err := "a" },
                { Time := cutoff 0, Err := "y" }, { Time := -Hour, Err := "b" },
                { Time := cutoff 0, Err := "z" }]) = some c)
      ∧ codeOf (DefaultErrHandler 0 0 "task" (List.replicate 8 { Time := cutoff 0, Err := "x" }))
          = some MessageCode.Sleep :=
  have hins : InsertedAt (cutoff 0)
      [{ Time := -Hour, Err := "a" }, { Time := -Hour, Err := "b" }]
      [{ Time := cutoff 0, Err := "x" }, { Time := -Hour, Err := "a" },
        { Time := cutoff 0, Err := "y" }, { Time := -Hour, Err := "b" },
        { Time := cutoff 0, Err := "z" }] :=
    .insert _ rfl (.keep _ (.insert _ rfl (.keep _ (.insert _ rfl .done))))
  ⟨hins, (cutoff_records_not_counted 0 0 "task" _ _ hins).2.2.1,
    (cutoff_records_not_counted 0 0 "task" _ _ hins).2.2.2 8 "x"⟩

/-- C6: records older than the look-back window are never counted.  For every
history, of any length, in which no record occurred strictly after
`now - 4h`, the loop counts no strike and `DefaultErrHandler` returns a
`Sleep` message, which is not the terminal message. -/
theorem old_records_yield_sleep (now₁ now₂ : Time) (taskID : String) (errs : List Err)
    (h : ∀ e ∈ errs, ¬ cutoff now₁ < e.Time) :
    countStrikes (Time.Add now₁ DefaultErrLifetime) errs 0 = 0
      ∧ ∃ (m : Message) (kept : List Err),
          DefaultErrHandler now₁ now₂ taskID errs = some (m, kept)
            ∧ m.Code = MessageCode.Sleep ∧ ¬ isRateExceeded m := by
  have hz := strikeCount_eq_zero_of_old now₁ errs h
  refine ⟨by rw [countStrikes_eq_strikeCount, hz], _, _,
    DefaultErrHandler_of_lt now₁ now₂ taskID errs (by rw [hz]; decide), rfl, ?_⟩
  intro hm
  exact MessageCode.noConfusion hm.1

/-- C6 at 1000 records that all occurred five hours before `now`. -/
theorem old_records_yield_sleep_witness :
    (∀ e ∈ sampleHistory 1000 (fun _ => -5 * Hour), ¬ cutoff 0 < e.Time)
      ∧ countStrikes (Time.Add 0 DefaultErrLifetime) (sampleHistory 1000 (fun _ => -5 * Hour)) 0 = 0
      ∧ ∃ (m : Message) (kept : List Err),
          DefaultErrHandler 0 0 "task" (sampleHistory 1000 (fun _ => -5 * Hour)) = some (m, kept)
            ∧ m.Code = MessageCode.Sleep ∧ ¬ isRateExceeded m :=
  have hold : ∀ e ∈ sampleHistory 1000 (fun _ => -5 * Hour), ¬ cutoff 0 < e.Time := by
    intro e he
    simp only [sampleHistory, List.mem_map] at he
    obtain ⟨_, _, rfl⟩ := he
    decide
  ⟨hold, old_records_yield_sleep 0 0 "task" _ hold⟩

/-! ## The deadline -/

/-- C7, as stated, fails: when the clock advances by one nanosecond between
the two readings, the deadline returned for the empty history is 10 minutes
after the second reading, which is neither 10 minutes after the reading the
cutoff was computed from nor 4 hours 10 minutes after that cutoff. -/
theorem deadline_not_from_first_reading :
    strikeCount 0 [] < 8
      ∧ untilOf (DefaultErrHandler 0 1 "task" []) = some (some (1 + 10 * Minute))
      ∧ untilOf (DefaultErrHandler 0 1 "task" []) ≠ some (some (0 + 10 * Minute))
      ∧ untilOf (DefaultErrHandler 0 1 "task" [])
          ≠ some (some (cutoff 0 + (4 * Hour + 10 * Minute))) := by
  decide

/-- C7, amended: on the Sleep path the returned deadline is 10 minutes after
the second clock reading `now₂`, the one taken after the strikes were counted;
it lies 4 hours 10 minutes plus the time elapsed between the two readings
after the cutoff used for counting, hence exactly 4 hours 10 minutes after
that cutoff when the two readings are the same instant. -/
theorem sleep_deadline (now₁ now₂ : Time) (taskID : String) (errs : List Err)
    (h : strikeCount now₁ errs < 8) :
    untilOf (DefaultErrHandler now₁ now₂ taskID errs) = some (some (now₂ + 10 * Minute))
      ∧ untilOf (DefaultErrHandler now₁ now₂ taskID errs)
          = some (some (cutoff now₁ + (4 * Hour + 10 * Minute) + (now₂ - now₁)))
      ∧ (now₂ = now₁ → untilOf (DefaultErrHandler now₁ now₂ taskID errs)
          = some (some (cutoff now₁ + (4 * Hour + 10 * Minute)))) := by
  have hr : untilOf (DefaultErrHandler now₁ now₂ taskID errs)
      = some (some (now₂ + 10 * Minute)) := by
    rw [DefaultErrHandler_of_lt now₁ now₂ taskID errs h]
    rfl
  refine ⟨hr, ?_, ?_⟩
  · rw [hr]
    congr 2
    simp only [cutoff]; ring
  · intro heq
    rw [hr, heq]
    congr 2
    simp only [cutoff]; ring

/-- C7, amended, at 3 strikes with the second reading 5 nanoseconds after the
first. -/
theorem sleep_deadline_witness :
    strikeCount 100 (sampleHistory 3 (fun _ => 0)) < 8
      ∧ untilOf (DefaultErrHandler 100 105 "task" (sampleHistory 3 (fun _ => 0)))
          = some (some (105 + 10 * Minute))
      ∧ untilOf (DefaultErrHandler 100 105 "task" (sampleHistory 3 (fun _ => 0)))
          = some (some (cutoff 100 + (4 * Hour + 10 * Minute) + (105 - 100)))
      ∧ ((105 : Time) = 100 → untilOf (DefaultErrHandler 100 105 "task" (sampleHistory 3 (fun _ => 0)))
          = some (some (cutoff 100 + (4 * Hour + 10 * Minute)))) :=
  ⟨by decide, sleep_deadline 100 105 "task" _ (by decide)⟩

/-! ## Shape of the message -/

/-- C8: for every input `DefaultErrHandler` returns a message that carries a
deadline if and only if its code is `Sleep`, and carries a cause if and only
if it is the terminal rate-exceeded message; a `Sleep` message has no cause
and the terminal message has no deadline. -/
theorem message_fields_match_code (now₁ now₂ : Time) (taskID : String) (errs : List Err) :
    ∃ (m : Message) (kept : List Err),
      DefaultErrHandler now₁ now₂ taskID errs = some (m, kept)
        ∧ (m.Until ≠ none ↔ m.Code = MessageCode.Sleep)
        ∧ (m.Err ≠ none ↔ isRateExceeded m)
        ∧ (m.Code = MessageCode.Sleep → m.Err = none)
        ∧ (isRateExceeded m → m.Until = none) := by
  rcases DefaultErrHandler_cases now₁ now₂ taskID errs with ⟨_, hr⟩ | ⟨_, hr⟩
  · refine ⟨_, _, hr, ?_, ?_, ?_, ?_⟩
    · exact ⟨fun hne => absurd rfl hne, fun hc => MessageCode.noConfusion hc⟩
    · exact ⟨fun _ => ⟨rfl, rfl⟩, fun _ => Option.some_ne_none _⟩
    · intro hc
      exact MessageCode.noConfusion hc
    · intro _
      rfl
  · refine ⟨_, _, hr, ?_, ?_, ?_, ?_⟩
    · exact ⟨fun _ => rfl, fun _ => Option.some_ne_none _⟩
    · exact ⟨fun hne => absurd rfl hne, fun hm => MessageCode.noConfusion hm.1⟩
    · intro _
      rfl
    · intro hm
      exact MessageCode.noConfusion hm.1

/-! ## What the result depends on -/

/-- C9: `DefaultErrHandler` ignores the task identifier: for every pair of
task ids, every history and the same clock readings, the returned message and
the returned history are identical. -/
theorem taskID_ignored (now₁ now₂ : Time) (taskID₁ taskID₂ : String) (errs : List Err) :
    DefaultErrHandler now₁ now₂ taskID₁ errs = DefaultErrHandler now₁ now₂ taskID₂ errs
      ∧ ∃ (m : Message) (kept : List Err),
          DefaultErrHandler now₁ now₂ taskID₁ errs = some (m, kept)
            ∧ DefaultErrHandler now₁ now₂ taskID₂ errs = some (m, kept) := by
  refine ⟨rfl, ?_⟩
  rcases DefaultErrHandler_cases now₁ now₂ taskID₁ errs with ⟨_, hr⟩ | ⟨_, hr⟩
  · exact ⟨_, _, hr, hr⟩
  · exact ⟨_, _, hr, hr⟩

/-- C10, as stated, fails: two invocations with the same task id, the same
(empty) history and the same current time 0 at the moment the cutoff is
computed return different deadlines, hence different messages, when the second
clock reading comes one nanosecond later in the one than in the other. -/
theorem same_time_different_deadline :
    codeOf (DefaultErrHandler 0 1 "task" []) = codeOf (DefaultErrHandler 0 2 "task" [])
      ∧ historyOf (DefaultErrHandler 0 1 "task" []) = historyOf (DefaultErrHandler 0 2 "task" [])
      ∧ untilOf (DefaultErrHandler 0 1 "task" []) = some (some (1 + 10 * Minute))
      ∧ untilOf (DefaultErrHandler 0 2 "task" []) = some (some (2 + 10 * Minute))
      ∧ untilOf (DefaultErrHandler 0 1 "task" []) ≠ untilOf (DefaultErrHandler 0 2 "task" [])
      ∧ DefaultErrHandler 0 1 "task" [] ≠ DefaultErrHandler 0 2 "task" [] := by
  decide

/-- C10, amended: `DefaultErrHandler` is determined by its arguments and the
two clock readings it takes.  Two invocations with the same task id, the same
history and the same first reading both return, with the same code, the same
cause and the same history; they return the same deadline, and so the same
message, exactly when their second readings are the same too or the result is
the terminal message, which carries no deadline. -/
theorem determined_by_clock_readings (now₁ a₂ b₂ : Time) (taskID : String) (errs : List Err) :
    (∃ (m m' : Message) (kept : List Err),
        DefaultErrHandler now₁ a₂ taskID errs = some (m, kept)
          ∧ DefaultErrHandler now₁ b₂ taskID errs = some (m', kept)
          ∧ m.Code = m'.Code ∧ m.Err = m'.Err)
      ∧ (untilOf (DefaultErrHandler now₁ a₂ taskID errs)
            = untilOf (DefaultErrHandler now₁ b₂ taskID errs)
          ↔ a₂ = b₂ ∨ 8 ≤ strikeCount now₁ errs)
      ∧ (DefaultErrHandler now₁ a₂ taskID errs = DefaultErrHandler now₁ b₂ taskID errs
          ↔ a₂ = b₂ ∨ 8 ≤ strikeCount now₁ errs) := by
  rcases Nat.lt_or_ge (strikeCount now₁ errs) DefaultErrMax with hs | hs
  · have ha := DefaultErrHandler_of_lt now₁ a₂ taskID errs hs
    have hb := DefaultErrHandler_of_lt now₁ b₂ taskID errs hs
    have hno : ¬ 8 ≤ strikeCount now₁ errs := Nat.not_le.mpr hs
    have hua : untilOf (DefaultErrHandler now₁ a₂ taskID errs)
        = some (some (a₂ + 10 * Minute)) := by rw [ha]; rfl
    have hub : untilOf (DefaultErrHandler now₁ b₂ taskID errs)
        = some (some (b₂ + 10 * Minute)) := by rw [hb]; rfl
    have hinj : untilOf (DefaultErrHandler now₁ a₂ taskID errs)
        = untilOf (DefaultErrHandler now₁ b₂ taskID errs) → a₂ = b₂ := by
      intro heq
      rw [hua, hub] at heq
      exact add_right_cancel (Option.some.inj (Option.some.inj heq))
    refine ⟨⟨_, _, _, ha, hb, rfl, rfl⟩, ⟨fun heq => Or.inl (hinj heq), ?_⟩,
      ⟨fun heq => Or.inl (hinj (congrArg untilOf heq)), ?_⟩⟩
    · rintro (heq | hterm)
      · rw [heq]
      · exact absurd hterm hno
    · rintro (heq | hterm)
      · rw [heq]
      · exact absurd hterm hno
  · have ha := DefaultErrHandler_of_le now₁ a₂ taskID errs hs
    have hb := DefaultErrHandler_of_le now₁ b₂ taskID errs hs
    refine ⟨⟨_, _, _, ha, hb, rfl, rfl⟩, ⟨fun _ => Or.inr hs, fun _ => ?_⟩,
      ⟨fun _ => Or.inr hs, fun _ => ?_⟩⟩
    · rw [ha, hb]
    · rw [ha, hb]

/-! ## Totality and order -/

theorem drop_isSuffix_history (errs : List Err) (k : Nat) : List.IsSuffix (errs.drop k) errs :=
  List.drop_suffix k errs

/-- C11: `DefaultErrHandler` is total.  For every history it returns a result;
the slice expression `errs[len(errs)-8:]`, which would fail on a history
shorter than 8, is in bounds whenever `len(errs) > 8`, the only case in which
it is evaluated; and the empty history yields `Sleep` with an empty returned
history. -/
theorem DefaultErrHandler_total (now₁ now₂ : Time) (taskID : String) (errs : List Err) :
    (∃ (m : Message) (kept : List Err), DefaultErrHandler now₁ now₂ taskID errs = some (m, kept))
      ∧ (errs.length > 8 →
          0 ≤ (errs.length : Int) - 8 ∧ (errs.length : Int) - 8 ≤ (errs.length : Int)
            ∧ sliceFrom errs ((errs.length : Int) - (DefaultErrMax : Int))
                = some (errs.drop (errs.length - 8)))
      ∧ (errs.length < 8 →
          sliceFrom errs ((errs.length : Int) - (DefaultErrMax : Int)) = none)
      ∧ DefaultErrHandler now₁ now₂ taskID []
          = some ({ Code := MessageCode.Sleep, Until := some (now₂ + 10 * Minute), Err := none },
              []) := by
  refine ⟨?_, ?_, ?_, ?_⟩
  · rcases DefaultErrHandler_cases now₁ now₂ taskID errs with ⟨_, hr⟩ | ⟨_, hr⟩
    · exact ⟨_, _, hr⟩
    · exact ⟨_, _, hr⟩
  · intro hl
    refine ⟨by omega, by omega, ?_⟩
    exact sliceFrom_tail errs hl
  · intro hl
    have hneg : ¬ (0 ≤ (errs.length : Int) - (DefaultErrMax : Int)
        ∧ (errs.length : Int) - (DefaultErrMax : Int) ≤ (errs.length : Int)) := by
      simp only [DefaultErrMax]
      omega
    rw [sliceFrom, if_neg hneg]
  · exact DefaultErrHandler_of_lt now₁ now₂ taskID [] (Nat.zero_lt_succ 7)

/-- C12: `DefaultErrHandler` never reorders the history.  On both paths the
returned history is a contiguous suffix of the input, so for every input in
non-decreasing `occurredAt` order the returned history is in non-decreasing
`occurredAt` order too. -/
theorem history_never_reordered (now₁ now₂ : Time) (taskID : String) (errs : List Err) :
    ∃ (m : Message) (kept : List Err),
      DefaultErrHandler now₁ now₂ taskID errs = some (m, kept)
        ∧ List.IsSuffix kept errs
        ∧ (nonDecreasing errs → nonDecreasing kept) := by
  rcases DefaultErrHandler_cases now₁ now₂ taskID errs with ⟨_, hr⟩ | ⟨_, hr⟩
  · exact ⟨_, _, hr, List.suffix_refl errs, fun h => h⟩
  · refine ⟨_, _, hr, drop_isSuffix_history errs _, fun h => ?_⟩
    exact List.Pairwise.sublist (drop_isSuffix_history errs _).sublist h

/-! ## Descriptions are opaque -/

theorem strikeCount_of_sameTimestamps (now : Time) {errs errs' : List Err}
    (h : sameTimestamps errs errs') : strikeCount now errs = strikeCount now errs' := by
  induction h with
  | nil => rfl
  | cons hab _ ih =>
    simp only [strikeCount, List.countP_cons, isStrike, hab] at ih ⊢
    rw [ih]

/-- C13: the policy does not interpret failure descriptions.  For every two
histories of equal length whose records have pairwise equal timestamps,
whatever their descriptions, `DefaultErrHandler` at the same clock readings
returns the same message and keeps the records of the same positions: both
returned histories are the input from one common index on, so every kept
record, description included, is the input record itself. -/
theorem descriptions_not_interpreted (now₁ now₂ : Time) (taskID : String)
    (errs errs' : List Err) (h : sameTimestamps errs errs') :
    ∃ (m : Message) (k : Nat),
      k ≤ errs.length ∧ errs.length = errs'.length
        ∧ DefaultErrHandler now₁ now₂ taskID errs = some (m, errs.drop k)
        ∧ DefaultErrHandler now₁ now₂ taskID errs' = some (m, errs'.drop k) := by
  have hcount := strikeCount_of_sameTimestamps now₁ h
  have hlen : errs.length = errs'.length := List.Forall₂.length_eq h
  rcases DefaultErrHandler_cases now₁ now₂ taskID errs with ⟨hs, hr⟩ | ⟨hs, hr⟩
  · refine ⟨_, 0, Nat.zero_le _, hlen, by rw [hr, List.drop_zero], ?_⟩
    rw [DefaultErrHandler_of_le now₁ now₂ taskID errs' (hcount ▸ hs), List.drop_zero]
  · refine ⟨_, errs.length - DefaultErrMax, Nat.sub_le _ _, hlen, hr, ?_⟩
    rw [DefaultErrHandler_of_lt now₁ now₂ taskID errs' (hcount ▸ hs), hlen]

/-- C13 at two histories of 10 records with the same timestamps, the one
described by `"a"` throughout, the other by `"b"`: with 4 strikes each, both
get the `Sleep` message and are trimmed from the index 2 on. -/
theorem descriptions_not_interpreted_witness :
    sameTimestamps (labelledHistory 10 (fun i => -Hour + i) (fun _ => "a"))
        (labelledHistory 10 (fun i => -Hour + i) (fun _ => "b"))
      ∧ ∃ (m : Message) (k : Nat),
          k ≤ (labelledHistory 10 (fun i => -Hour + i) (fun _ => "a")).length
            ∧ (labelledHistory 10 (fun i => -Hour + i) (fun _ => "a")).length
                = (labelledHistory 10 (fun i => -Hour + i) (fun _ => "b")).length
            ∧ DefaultErrHandler (3 * Hour + 5) 0 "task"
                  (labelledHistory 10 (fun i => -Hour + i) (fun _ => "a"))
                = some (m, (labelledHistory 10 (fun i => -Hour + i) (fun _ => "a")).drop k)
            ∧ DefaultErrHandler (3 * Hour + 5) 0 "task"
                  (labelledHistory 10 (fun i => -Hour + i) (fun _ => "b"))
                = some (m, (labelledHistory 10 (fun i => -Hour + i) (fun _ => "b")).drop k) :=
  have hsame : sameTimestamps (labelledHistory 10 (fun i => -Hour + i) (fun _ => "a"))
      (labelledHistory 10 (fun i => -Hour + i) (fun _ => "b")) := by
    simp only [sameTimestamps, labelledHistory, List.forall₂_map_left_iff,
      List.forall₂_map_right_iff]
    exact List.forall₂_same.mpr (fun _ _ => rfl)
  ⟨hsame, descriptions_not_interpreted (3 * Hour + 5) 0 "task" _ _ hsame⟩

/-! ## The executor cycle keeps the history bounded -/

theorem strikeCount_drop_le (now : Time) (errs : List Err) (k : Nat) :
    strikeCount now (errs.drop k) ≤ strikeCount now errs :=
  List.Sublist.countP_le _ (List.drop_sublist k errs)

theorem executorCycle_cons_terminal (taskID : String) (persisted : List Err) (f : Failure)
    (rest : List Failure)
    (h : DefaultErrMax ≤ strikeCount f.now₁ (persisted ++ [f.record])) :
    executorCycle taskID persisted (f :: rest)
      = [{ passed := persisted ++ [f.record],
           msg := { Code := MessageCode.Error, Until := none, Err := some ExceededErrorRate },
           persisted := persisted ++ [f.record] }] := by
  have hterm : isRateExceeded
      { Code := MessageCode.Error, Until := none, Err := some ExceededErrorRate } := ⟨rfl, rfl⟩
  simp only [executorCycle, DefaultErrHandler_of_le f.now₁ f.now₂ taskID _ h, if_pos hterm]

theorem executorCycle_cons_sleep (taskID : String) (persisted : List Err) (f : Failure)
    (rest : List Failure)
    (h : strikeCount f.now₁ (persisted ++ [f.record]) < DefaultErrMax) :
    executorCycle taskID persisted (f :: rest)
      = { passed := persisted ++ [f.record],
          msg := { Code := MessageCode.Sleep, Until := some (f.now₂ + 10 * Minute), Err := none },
          persisted := (persisted ++ [f.record]).drop
            ((persisted ++ [f.record]).length - DefaultErrMax) }
        :: executorCycle taskID
            ((persisted ++ [f.record]).drop ((persisted ++ [f.record]).length - DefaultErrMax))
            rest := by
  have hsleep : ¬ isRateExceeded
      { Code := MessageCode.Sleep, Until := some (f.now₂ + 10 * Minute), Err := none } :=
    fun hm => MessageCode.noConfusion hm.1
  simp only [executorCycle, DefaultErrHandler_of_lt f.now₁ f.now₂ taskID _ h, if_neg hsleep]

theorem executorCycle_bounded (taskID : String) (failures : List Failure) :
    ∀ persisted : List Err, persisted.length ≤ DefaultErrMax →
      ∀ r ∈ executorCycle taskID persisted failures,
        r.passed.length ≤ DefaultErrMax + 1
          ∧ (r.msg.Code = MessageCode.Sleep → r.persisted.length ≤ DefaultErrMax) := by
  induction failures with
  | nil =>
    intro _ _ r hr
    simp [executorCycle] at hr
  | cons f rest ih =>
    intro persisted hp r hr
    have hlen : (persisted ++ [f.record]).length ≤ DefaultErrMax + 1 := by
      simp only [List.length_append, List.length_singleton]; omega
    rcases Nat.lt_or_ge (strikeCount f.now₁ (persisted ++ [f.record])) DefaultErrMax with hs | hs
    · rw [executorCycle_cons_sleep taskID persisted f rest hs, List.mem_cons] at hr
      have hkept : ((persisted ++ [f.record]).drop
          ((persisted ++ [f.record]).length - DefaultErrMax)).length ≤ DefaultErrMax := by
        rw [List.length_drop]; omega
      rcases hr with rfl | hr
      · exact ⟨hlen, fun _ => hkept⟩
      · exact ih _ hkept r hr
    · rw [executorCycle_cons_terminal taskID persisted f rest hs, List.mem_singleton] at hr
      subst hr
      exact ⟨hlen, fun hc => MessageCode.noConfusion hc⟩

theorem executorCycle_progress (taskID : String) (failures : List Failure) :
    ∀ persisted : List Err,
      (executorCycle taskID persisted failures).length = failures.length
        ∨ ∃ r ∈ executorCycle taskID persisted failures, isRateExceeded r.msg := by
  induction failures with
  | nil =>
    intro _
    exact Or.inl rfl
  | cons f rest ih =>
    intro persisted
    rcases Nat.lt_or_ge (strikeCount f.now₁ (persisted ++ [f.record])) DefaultErrMax with hs | hs
    · rw [executorCycle_cons_sleep taskID persisted f rest hs]
      rcases ih ((persisted ++ [f.record]).drop
          ((persisted ++ [f.record]).length - DefaultErrMax)) with hl | ⟨r, hr, hterm⟩
      · exact Or.inl (by simp only [List.length_cons, hl])
      · exact Or.inr ⟨r, List.mem_cons_of_mem _ hr, hterm⟩
    · rw [executorCycle_cons_terminal taskID persisted f rest hs]
      exact Or.inr ⟨_, List.mem_singleton.mpr rfl, rfl, rfl⟩

/-- C14: in the executor cycle (append one failure record to the persisted
history, call `DefaultErrHandler`, persist the returned history, stop at the
terminal message) started from the empty history, every history passed to the
policy has at most 9 records and every history persisted after a `Sleep`
result has at most 8; the cycle handles every failure up to a terminal
message. -/
theorem executor_history_bounded (taskID : String) (failures : List Failure) (r : Round)
    (h : r ∈ executorCycle taskID [] failures) :
    r.passed.length ≤ 9
      ∧ (r.msg.Code = MessageCode.Sleep → r.persisted.length ≤ 8)
      ∧ ((executorCycle taskID [] failures).length = failures.length
          ∨ ∃ r' ∈ executorCycle taskID [] failures, isRateExceeded r'.msg) := by
  have hb := executorCycle_bounded taskID failures [] (Nat.zero_le _) r h
  exact ⟨hb.1, hb.2, executorCycle_progress taskID failures []⟩

/-- C14 at the twelfth round of a run of 12 hourly failures: 9 records are
passed to the policy and 8 are persisted. -/
theorem executor_history_bounded_witness :
    twelfthHourlyRound ∈ executorCycle "task" [] (hourlyFailures 12)
      ∧ twelfthHourlyRound.passed.length ≤ 9
      ∧ (twelfthHourlyRound.msg.Code = MessageCode.Sleep → twelfthHourlyRound.persisted.length ≤ 8)
      ∧ ((executorCycle "task" [] (hourlyFailures 12)).length = (hourlyFailures 12).length
          ∨ ∃ r' ∈ executorCycle "task" [] (hourlyFailures 12), isRateExceeded r'.msg) :=
  ⟨by decide, executor_history_bounded "task" (hourlyFailures 12) twelfthHourlyRound (by decide)⟩

/-! ## The sentinel -/

/-- C15, as stated, fails: the history of 8 strikes whose records all carry
the description `"exceeded error rate"` triggers the terminal message, and the
text of the sentinel equals the description of a record of that history. -/
theorem sentinel_text_can_occur_in_history :
    returnsTerminal 0 0 "task"
        (labelledHistory 8 (fun _ => -Hour) (fun _ => "exceeded error rate"))
      ∧ ∃ e ∈ labelledHistory 8 (fun _ => -Hour) (fun _ => "exceeded error rate"),
          ExceededErrorRate.text = e.Err :=
  ⟨⟨_, _, DefaultErrHandler_of_le 0 0 "task" _ (by decide), rfl, rfl⟩,
    ⟨{ Time := -Hour, Err := "exceeded error rate" }, List.mem_cons_self _ _, rfl⟩⟩

/-- C15, amended: the sentinel cause returned on the terminal path is a fixed
value that does not depend on the failure causes in the history.  For every
history that triggers the terminal message the cause is `ExceededErrorRate`,
whose text is `"exceeded error rate"`, and the history is returned as it is;
the text differs from the description of every record of the history exactly
when no record carries that very description. -/
theorem sentinel_is_fixed (now₁ now₂ : Time) (taskID : String) (errs : List Err)
    (h : returnsTerminal now₁ now₂ taskID errs) :
    causeOf (DefaultErrHandler now₁ now₂ taskID errs) = some (some ExceededErrorRate)
      ∧ historyOf (DefaultErrHandler now₁ now₂ taskID errs) = some errs
      ∧ ExceededErrorRate.text = "exceeded error rate"
      ∧ ((∀ e ∈ errs, ExceededErrorRate.text ≠ e.Err)
          ↔ (∀ e ∈ errs, e.Err ≠ "exceeded error rate")) := by
  obtain ⟨m, kept, hr, hm⟩ := h
  refine ⟨?_, ?_, rfl, ?_⟩
  · rw [hr]
    exact congrArg some hm.2
  · rcases DefaultErrHandler_cases now₁ now₂ taskID errs with ⟨_, hr'⟩ | ⟨_, hr'⟩
    · rw [hr']; rfl
    · rw [hr'] at hr
      have hcode : MessageCode.Sleep = m.Code :=
        congrArg (fun p : Message × List Err => p.1.Code) (Option.some.inj hr)
      rw [hm.1] at hcode
      exact MessageCode.noConfusion hcode
  · constructor
    · intro hne e he heq
      exact hne e he heq.symm
    · intro hne e he heq
      exact hne e he heq.symm

/-- C15, amended, at 8 strikes described by `"boom"`. -/
theorem sentinel_is_fixed_witness :
    returnsTerminal 0 0 "task" (sampleHistory 8 (fun _ => -Hour))
      ∧ causeOf (DefaultErrHandler 0 0 "task" (sampleHistory 8 (fun _ => -Hour)))
          = some (some ExceededErrorRate)
      ∧ historyOf (DefaultErrHandler 0 0 "task" (sampleHistory 8 (fun _ => -Hour)))
          = some (sampleHistory 8 (fun _ => -Hour))
      ∧ ExceededErrorRate.text = "exceeded error rate"
      ∧ ((∀ e ∈ sampleHistory 8 (fun _ => -Hour), ExceededErrorRate.text ≠ e.Err)
          ↔ (∀ e ∈ sampleHistory 8 (fun _ => -Hour), e.Err ≠ "exceeded error rate")) :=
  have hterm : returnsTerminal 0 0 "task" (sampleHistory 8 (fun _ => -Hour)) :=
    ⟨_, _, DefaultErrHandler_of_le 0 0 "task" _ (by decide), rfl, rfl⟩
  ⟨hterm, sentinel_is_fixed 0 0 "task" _ hterm⟩

/-! ## Algebraic properties -/

/-- C16: at fixed clock readings `DefaultErrHandler` is idempotent on the
history.  For every history, applying the policy to the history it returned
yields the same message, hence the same code, and returns that history
unchanged: a trimmed history has at most as many strikes as the input and at
most 8 records, and the history of a terminal result is the input itself. -/
theorem idempotent_on_history (now₁ now₂ : Time) (taskID : String) (errs : List Err) :
    ∃ (m : Message) (kept : List Err),
      DefaultErrHandler now₁ now₂ taskID errs = some (m, kept)
        ∧ DefaultErrHandler now₁ now₂ taskID kept = some (m, kept)
        ∧ codeOf (DefaultErrHandler now₁ now₂ taskID kept)
            = codeOf (DefaultErrHandler now₁ now₂ taskID errs)
        ∧ strikeCount now₁ kept ≤ strikeCount now₁ errs
        ∧ (m.Code = MessageCode.Sleep → kept.length ≤ 8)
        ∧ (isRateExceeded m → kept = errs) := by
  rcases DefaultErrHandler_cases now₁ now₂ taskID errs with ⟨_, hr⟩ | ⟨hs, hr⟩
  · exact ⟨_, _, hr, hr, rfl, Nat.le_refl _, fun hc => MessageCode.noConfusion hc, fun _ => rfl⟩
  · have hle := strikeCount_drop_le now₁ errs (errs.length - DefaultErrMax)
    have hlen : (errs.drop (errs.length - DefaultErrMax)).length ≤ DefaultErrMax := by
      rw [List.length_drop]; omega
    have hagain := DefaultErrHandler_of_lt now₁ now₂ taskID
      (errs.drop (errs.length - DefaultErrMax)) (Nat.lt_of_le_of_lt hle hs)
    have hzero : (errs.drop (errs.length - DefaultErrMax)).length - DefaultErrMax = 0 :=
      Nat.sub_eq_zero_of_le hlen
    rw [hzero, List.drop_zero] at hagain
    refine ⟨_, _, hr, hagain, ?_, hle, fun _ => hlen, fun hm => MessageCode.noConfusion hm.1⟩
    rw [hagain, hr]

theorem strikeCount_drop_of_nonDecreasing (now : Time) (errs : List Err)
    (hsorted : nonDecreasing errs) (hlt : strikeCount now errs < DefaultErrMax) :
    strikeCount now (errs.drop (errs.length - DefaultErrMax)) = strikeCount now errs := by
  have hsplit : strikeCount now errs
      = strikeCount now (errs.take (errs.length - DefaultErrMax))
        + strikeCount now (errs.drop (errs.length - DefaultErrMax)) := by
    unfold strikeCount
    rw [← List.countP_append, List.take_append_drop]
  have hzero : strikeCount now (errs.take (errs.length - DefaultErrMax)) = 0 := by
    by_contra hne
    have hpos : 0 < List.countP (isStrike now) (errs.take (errs.length - DefaultErrMax)) :=
      Nat.pos_of_ne_zero hne
    obtain ⟨a, ha, hstrike⟩ := List.countP_pos_iff.mp hpos
    have hk : 0 < errs.length - DefaultErrMax := by
      by_contra hk0
      have hk' : errs.length - DefaultErrMax = 0 := by omega
      rw [hk', List.take_zero] at ha
      exact List.not_mem_nil a ha
    have hpair : nonDecreasing (errs.take (errs.length - DefaultErrMax)
        ++ errs.drop (errs.length - DefaultErrMax)) := by
      rw [List.take_append_drop]; exact hsorted
    have hcross := (List.pairwise_append.mp hpair).2.2 a ha
    have hall : ∀ b ∈ errs.drop (errs.length - DefaultErrMax), isStrike now b = true := by
      intro b hb
      have hab : a.Time ≤ b.Time := hcross b hb
      have hat : cutoff now < a.Time := by simpa [isStrike] using hstrike
      simpa [isStrike] using lt_of_lt_of_le hat hab
    have hfull : List.countP (isStrike now) (errs.drop (errs.length - DefaultErrMax))
        = (errs.drop (errs.length - DefaultErrMax)).length := List.countP_eq_length.mpr hall
    have hlen : (errs.drop (errs.length - DefaultErrMax)).length = DefaultErrMax := by
      rw [List.length_drop]; omega
    have hge : DefaultErrMax ≤ strikeCount now errs := by
      rw [hsplit]
      unfold strikeCount
      omega
    exact absurd hlt (Nat.not_lt.mpr hge)
  omega

theorem isStrike_recent (now : Time) (d : String) :
    isStrike now { Time := now, Err := d } = true := by
  simp only [isStrike, cutoff, Hour, Minute, decide_eq_true_eq]
  linarith

theorem isStrike_old (now : Time) (d : String) :
    isStrike now { Time := now - 5 * Hour, Err := d } = false := by
  simp only [isStrike, cutoff, Hour, Minute, decide_eq_false_iff_not, not_lt]
  linarith

theorem strikeCount_recentThenOld (now : Time) : strikeCount now (recentThenOld now) = 1 := by
  have hold : strikeCount now (List.replicate 9 { Time := now - 5 * Hour, Err := "old" }) = 0 := by
    rw [strikeCount, List.countP_eq_zero]
    intro e he
    rw [List.eq_of_mem_replicate he, isStrike_old]
    exact Bool.false_ne_true
  unfold strikeCount at hold ⊢
  rw [recentThenOld, List.countP_cons, hold, isStrike_recent]
  rfl

theorem strikeCount_drop_recentThenOld (now : Time) :
    strikeCount now ((recentThenOld now).drop ((recentThenOld now).length - DefaultErrMax)) = 0 := by
  have hdrop : (recentThenOld now).drop ((recentThenOld now).length - DefaultErrMax)
      = List.replicate 8 { Time := now - 5 * Hour, Err := "old" } := rfl
  rw [hdrop, strikeCount, List.countP_eq_zero]
  intro e he
  rw [List.eq_of_mem_replicate he, isStrike_old]
  exact Bool.false_ne_true

theorem recentThenOld_not_nonDecreasing (now : Time) : ¬ nonDecreasing (recentThenOld now) := by
  intro h
  have hle : now ≤ now - 5 * Hour :=
    List.rel_of_pairwise_cons h (List.mem_cons_self _ _)
  simp only [Hour, Minute] at hle
  linarith

/-- C17: for every history in non-decreasing `occurredAt` order with fewer
than 8 strikes, trimming loses no strike: the returned history has as many
records strictly after `now - 4h` as the input.  For the history that is not
in chronological order, one recent record placed before 9 old ones, the
returned history has strictly fewer strikes than the input. -/
theorem trimming_keeps_strikes_of_sorted (now₁ now₂ : Time) (taskID : String) (errs : List Err)
    (hsorted : nonDecreasing errs) (hlt : strikeCount now₁ errs < 8) :
    (∃ kept : List Err,
        historyOf (DefaultErrHandler now₁ now₂ taskID errs) = some kept
          ∧ strikeCount now₁ kept = strikeCount now₁ errs)
      ∧ ∃ kept' : List Err,
          ¬ nonDecreasing (recentThenOld now₁)
            ∧ strikeCount now₁ (recentThenOld now₁) < 8
            ∧ historyOf (DefaultErrHandler now₁ now₂ taskID (recentThenOld now₁)) = some kept'
            ∧ strikeCount now₁ kept' < strikeCount now₁ (recentThenOld now₁) := by
  have hone := strikeCount_recentThenOld now₁
  have hlt' : strikeCount now₁ (recentThenOld now₁) < DefaultErrMax := by
    rw [hone]; decide
  constructor
  · refine ⟨_, ?_, strikeCount_drop_of_nonDecreasing now₁ errs hsorted hlt⟩
    rw [DefaultErrHandler_of_lt now₁ now₂ taskID errs hlt]
    rfl
  · refine ⟨(recentThenOld now₁).drop ((recentThenOld now₁).length - DefaultErrMax),
      recentThenOld_not_nonDecreasing now₁, hlt', ?_, ?_⟩
    · rw [DefaultErrHandler_of_lt now₁ now₂ taskID _ hlt']
      rfl
    · rw [strikeCount_drop_recentThenOld, hone]
      exact Nat.zero_lt_one

/-- C17 at the 20 records of `mixedHistory`, 13 old ones followed by 7
strikes: the 8 records kept hold all 7 strikes. -/
theorem trimming_keeps_strikes_of_sorted_witness :
    nonDecreasing mixedHistory ∧ strikeCount 0 mixedHistory < 8
      ∧ (∃ kept : List Err,
          historyOf (DefaultErrHandler 0 0 "task" mixedHistory) = some kept
            ∧ strikeCount 0 kept = strikeCount 0 mixedHistory)
      ∧ ∃ kept' : List Err,
          ¬ nonDecreasing (recentThenOld 0)
            ∧ strikeCount 0 (recentThenOld 0) < 8
            ∧ historyOf (DefaultErrHandler 0 0 "task" (recentThenOld 0)) = some kept'
            ∧ strikeCount 0 kept' < strikeCount 0 (recentThenOld 0) :=
  ⟨by decide, by decide,
    trimming_keeps_strikes_of_sorted 0 0 "task" mixedHistory (by decide) (by decide)⟩

theorem returnsTerminal_iff (now₁ now₂ : Time) (taskID : String) (errs : List Err) :
    returnsTerminal now₁ now₂ taskID errs ↔ DefaultErrMax ≤ strikeCount now₁ errs := by
  constructor
  · rintro ⟨m, kept, hr, hm⟩
    rcases DefaultErrHandler_cases now₁ now₂ taskID errs with ⟨hs, _⟩ | ⟨_, hr'⟩
    · exact hs
    · rw [hr'] at hr
      have hcode : MessageCode.Sleep = m.Code :=
        congrArg (fun p : Message × List Err => p.1.Code) (Option.some.inj hr)
      rw [hm.1] at hcode
      exact MessageCode.noConfusion hcode
  · intro hs
    exact ⟨_, _, DefaultErrHandler_of_le now₁ now₂ taskID errs hs, rfl, rfl⟩

theorem DefaultErrHandler_code_of_strikeCount_eq (now₁ now₂ : Time) (taskID : String)
    (a b : List Err) (h : strikeCount now₁ a = strikeCount now₁ b) :
    codeOf (DefaultErrHandler now₁ now₂ taskID a) = codeOf (DefaultErrHandler now₁ now₂ taskID b) := by
  rcases DefaultErrHandler_cases now₁ now₂ taskID a with ⟨hs, hr⟩ | ⟨hs, hr⟩
  · rw [hr, DefaultErrHandler_of_le now₁ now₂ taskID b (h ▸ hs)]
    rfl
  · rw [hr, DefaultErrHandler_of_lt now₁ now₂ taskID b (h ▸ hs)]
    rfl

/-- C18: at fixed clock readings the terminal decision is monotone in the
history.  If `DefaultErrHandler` returns the terminal rate-exceeded message
for a history, it returns it for every history obtained from that one by
inserting additional records, with any timestamps and at any positions; and
for any two histories that are permutations of each other the decision, and
the message code, are the same. -/
theorem terminal_decision_monotone (now₁ now₂ : Time) (taskID : String) (errs errs' : List Err)
    (hsub : List.Sublist errs errs') (hterm : returnsTerminal now₁ now₂ taskID errs) :
    returnsTerminal now₁ now₂ taskID errs'
      ∧ ∀ a b : List Err, List.Perm a b →
          (returnsTerminal now₁ now₂ taskID a ↔ returnsTerminal now₁ now₂ taskID b)
            ∧ codeOf (DefaultErrHandler now₁ now₂ taskID a)
                = codeOf (DefaultErrHandler now₁ now₂ taskID b) := by
  constructor
  · rw [returnsTerminal_iff] at hterm ⊢
    exact Nat.le_trans hterm (List.Sublist.countP_le _ hsub)
  · intro a b hperm
    have hcount : strikeCount now₁ a = strikeCount now₁ b := List.Perm.countP_eq _ hperm
    refine ⟨?_, DefaultErrHandler_code_of_strikeCount_eq now₁ now₂ taskID a b hcount⟩
    rw [returnsTerminal_iff, returnsTerminal_iff, hcount]

/-- C18 at the 8 strikes of `sampleHistory`, with an old record inserted in
front and a recent one at the end. -/
theorem terminal_decision_monotone_witness :
    List.Sublist (sampleHistory 8 (fun _ => -Hour))
        ([{ Time := -9 * Hour, Err := "old" }] ++ sampleHistory 8 (fun _ => -Hour)
          ++ [{ Time := -1, Err := "new" }])
      ∧ returnsTerminal 0 0 "task" (sampleHistory 8 (fun _ => -Hour))
      ∧ returnsTerminal 0 0 "task"
          ([{ Time := -9 * Hour, Err := "old" }] ++ sampleHistory 8 (fun _ => -Hour)
            ++ [{ Time := -1, Err := "new" }])
      ∧ ∀ a b : List Err, List.Perm a b →
          (returnsTerminal 0 0 "task" a ↔ returnsTerminal 0 0 "task" b)
            ∧ codeOf (DefaultErrHandler 0 0 "task" a) = codeOf (DefaultErrHandler 0 0 "task" b) :=
  have hsub : List.Sublist (sampleHistory 8 (fun _ => -Hour))
      ([{ Time := -9 * Hour, Err := "old" }] ++ sampleHistory 8 (fun _ => -Hour)
        ++ [{ Time := -1, Err := "new" }]) :=
    (List.sublist_append_right _ _).trans (List.sublist_append_left _ _)
  have hterm : returnsTerminal 0 0 "task" (sampleHistory 8 (fun _ => -Hour)) :=
    ⟨_, _, DefaultErrHandler_of_le 0 0 "task" _ (by decide), rfl, rfl⟩
  ⟨hsub, hterm, terminal_decision_monotone 0 0 "task" _ _ hsub hterm⟩

end statemachine
